import Mathlib

/-!
Shallow embedding of the schedule-optimizer core (src/dataParser.py and the
relevant part of src/app.py).

Conventions:
* Clock values ("HH:MM" strings in the Python code, compared after `strptime`)
  are embedded as minutes after midnight (`Nat`); the comparison order is the
  same.
* Days are embedded as the literal strings the Python code uses
  ("Monday" … "Friday").
* Python's uncaught exceptions (the `ValueError` of `time_str.split('-')`
  tuple unpacking for strings with two or more hyphens, and the `ValueError`
  of `Problem.addVariable` for duplicate course ids) are embedded as
  `Except.error ()`.
* The backtracking search engine lives in the external `python-constraint`
  package, which is not part of this repository; it is modelled from the
  spec (§4.4): variables in creation order, values in domain order, a value
  is accepted iff it satisfies every unary constraint on its variable and
  every binary constraint against the already-bound variables, chronological
  backtracking, first complete assignment returned, `none` on exhaustion.
-/

/-- A course record as consumed by `ScheduleOptimizer` (src/dataParser.py):
`{id, course_dept, course_code, course_title, meeting_days, meeting_times}`. -/
structure Course where
  id : Nat
  course_dept : String
  course_code : String
  course_title : String
  meeting_days : List String
  meeting_times : List String
deriving DecidableEq, Repr

/-- A CSP value: a (day, time-slot) pair, day as the literal day-name string,
slot as minutes after midnight. -/
abbrev SlotVal := String × Nat

/-- `ScheduleOptimizer._load_data`: keep only courses without a literal
`"TBA"` entry in `meeting_times`. -/
def loadData (raw : List Course) : List Course :=
  raw.filter (fun c => !(c.meeting_times.contains "TBA"))

/-- The body of the `while current <= end` loop of `_generate_time_slots`,
with a step counter large enough for the whole loop (8:00 to 21:00 in
30-minute steps is 27 iterations). -/
def genSlotsGo : Nat → Nat → List Nat
  | 0, _ => []
  | n + 1, cur => if cur ≤ 1260 then cur :: genSlotsGo n (cur + 30) else []

/-- `ScheduleOptimizer._generate_time_slots`: every 30-minute mark from
8:00 (480) up to 21:00 (1260) inclusive. -/
def generateTimeSlots : List Nat :=
  genSlotsGo 64 480

/-- `self.days` from `ScheduleOptimizer.__init__`. -/
def days : List String :=
  ["Monday", "Tuesday", "Wednesday", "Thursday", "Friday"]

/-- The per-variable domain of `setup_variables`:
`[(day, time) for day in self.days for time in self.time_slots]`. -/
def fullDomain : List SlotVal :=
  days.flatMap (fun d => generateTimeSlots.map (fun t => (d, t)))

/-- Characters removed by Python's `str.strip()` (ASCII whitespace). -/
def pySpace (c : Char) : Bool :=
  c = ' ' || c = '\t' || c = '\n' || c = '\r' || c = '\x0b' || c = '\x0c'

/-- Python `str.strip()` on a character list. -/
def pyStrip (cs : List Char) : List Char :=
  ((cs.dropWhile pySpace).reverse.dropWhile pySpace).reverse

/-- Python `str.replace(c, rep)` for a single-character pattern. -/
def replCh (c : Char) (rep : List Char) : List Char → List Char
  | [] => []
  | x :: xs => if x = c then rep ++ replCh c rep xs else x :: replCh c rep xs

/-- Python `time_str.split('-')` on a character list: split at every
occurrence of the separator. -/
def splitCh (c : Char) : List Char → List (List Char)
  | [] => [[]]
  | x :: xs =>
    if x = c then [] :: splitCh c xs
    else
      match splitCh c xs with
      | [] => [[x]]
      | g :: gs => (x :: g) :: gs

/-- Does `pat` occur at the head of `s`? -/
def leadMatch : List Char → List Char → Bool
  | [], _ => true
  | _ :: _, [] => false
  | p :: ps, s :: ss => p == s && leadMatch ps ss

/-- Does `pat` occur as a contiguous substring of `s`?  (Python's `in` on
strings.) -/
def listHasInfix (pat : List Char) : List Char → Bool
  | [] => leadMatch pat []
  | s :: ss => leadMatch pat (s :: ss) || listHasInfix pat ss

/-- Python `pat in s` for strings. -/
def hasSub (s pat : String) : Bool :=
  listHasInfix pat.data s.data

/-- Numeric value of a digit character. -/
def dval (c : Char) : Nat :=
  c.toNat - 48

/-- `strptime` field `%I` (12-hour clock hour): the pattern
`1[0-2]|0[1-9]|[1-9]`, alternatives in this order.  (No alternative can
succeed where an earlier one matched and the rest of the pattern failed,
because the character after a matched hour must be `:`, never a digit, so
greedy first-match equals the regex semantics.) -/
def matchHour : List Char → Option (Nat × List Char)
  | [] => none
  | [c] => if '1' ≤ c && c ≤ '9' then some (dval c, []) else none
  | c1 :: c2 :: rest =>
    if c1 = '1' && ('0' ≤ c2 && c2 ≤ '2') then some (10 + dval c2, rest)
    else if c1 = '0' && ('1' ≤ c2 && c2 ≤ '9') then some (dval c2, rest)
    else if '1' ≤ c1 && c1 ≤ '9' then some (dval c1, c2 :: rest)
    else none

/-- `strptime` field `%M` (minute): the pattern `[0-5]\d|\d`.  As for the
hour, the character after a matched minute is never a digit on success, so
greedy first-match equals the regex semantics. -/
def matchMin : List Char → Option (Nat × List Char)
  | [] => none
  | [c] => if c.isDigit then some (dval c, []) else none
  | c1 :: c2 :: rest =>
    if ('0' ≤ c1 && c1 ≤ '5') && c2.isDigit then some (10 * dval c1 + dval c2, rest)
    else if c1.isDigit then some (dval c1, c2 :: rest)
    else none

/-- `strptime` field `%p` (case-insensitive `am`/`pm`); `strptime` also
requires the whole string to be consumed, so nothing may follow.  Returns
`some true` for PM. -/
def matchAmPm : List Char → Option Bool
  | [c1, c2] =>
    if c1.toLower = 'a' && c2.toLower = 'm' then some false
    else if c1.toLower = 'p' && c2.toLower = 'm' then some true
    else none
  | _ => none

/-- `datetime.strptime(s, "%I:%M%p")` followed by `strftime("%H:%M")`,
returned as minutes after midnight; `none` when `strptime` raises. -/
def parse12 (cs : List Char) : Option Nat :=
  match matchHour cs with
  | none => none
  | some (h, rest) =>
    match rest with
    | ':' :: rest2 =>
      match matchMin rest2 with
      | none => none
      | some (m, rest3) =>
        match matchAmPm rest3 with
        | none => none
        | some pm =>
          let h24 := if pm then (if h = 12 then 12 else h + 12) else (if h = 12 then 0 else h)
          some (h24 * 60 + m)
    | _ => none

/-- `start.strip().replace('a', 'AM').replace('p', 'PM')` on one half of a
time-range string. -/
def normHalf (cs : List Char) : List Char :=
  replCh 'p' ['P', 'M'] (replCh 'a' ['A', 'M'] (pyStrip cs))

/-- `ScheduleOptimizer._parse_time` on the character list of the input.
`Except.error ()` embeds the uncaught `ValueError` of
`start, end = time_str.split('-')` when the split does not yield exactly
two parts; `.ok none` is the `(None, None)` result. -/
def parseTimeCore (cs : List Char) : Except Unit (Option (Nat × Nat)) :=
  if '-' ∈ cs then
    match splitCh '-' cs with
    | [a, b] =>
      match parse12 (normHalf a), parse12 (normHalf b) with
      | some t1, some t2 => .ok (some (t1, t2))
      | _, _ => .ok none
    | _ => .error ()
  else .ok none

/-- `ScheduleOptimizer._parse_time`. -/
def parseTimeE (s : String) : Except Unit (Option (Nat × Nat)) :=
  parseTimeCore s.data

/-- The windows collected by `add_duration_constraints` for one course's
`meeting_times` list: skip `"TBA"` entries, skip entries whose parse
reports no window, abort on an entry whose parse raises. -/
def courseWindows : List String → Except Unit (List (Nat × Nat))
  | [] => .ok []
  | mt :: rest =>
    if mt = "TBA" then courseWindows rest
    else
      match parseTimeE mt with
      | .error e => .error e
      | .ok none => courseWindows rest
      | .ok (some w) => (courseWindows rest).map (fun l => (w.1, w.2) :: l)

/-- `add_duration_constraints` over the whole (filtered) course list:
the unary window constraints per course id. -/
def allWindows : List Course → Except Unit (List (Nat × List (Nat × Nat)))
  | [] => .ok []
  | c :: rest =>
    match courseWindows c.meeting_times with
    | .error e => .error e
    | .ok wl => (allWindows rest).map (fun l => (c.id, wl) :: l)

/-- `valid_days.add(d)`: Python set insertion, modelled as a duplicate-free
append (only membership in the result is ever consulted). -/
def addDay (acc : List String) (d : String) : List String :=
  if acc.contains d then acc else acc ++ [d]

/-- The per-token body of the `for day in meeting_days` loop of
`add_day_constraints`. -/
def dayStep (acc : List String) (tok : String) : List String :=
  let a1 := if hasSub tok "M" then addDay acc "Monday" else acc
  let a2 := if hasSub tok "T" && !(hasSub tok "H") then addDay a1 "Tuesday" else a1
  let a3 := if hasSub tok "W" then addDay a2 "Wednesday" else a2
  let a4 := if hasSub tok "TH" then addDay a3 "Thursday" else a3
  if hasSub tok "F" then addDay a4 "Friday" else a4

/-- The `valid_days` set computed by `add_day_constraints` for one course's
`meeting_days` token list. -/
def validDaysOf (tokens : List String) : List String :=
  tokens.foldl dayStep []

/-- The value held by the closed-over `valid_days` variable when the solver
actually evaluates the day-constraint lambdas: the set computed for the
*last* course whose `meeting_days` has no `"TBA"` entry (every lambda in
`add_day_constraints` closes over the same `valid_days` cell, which the loop
keeps rebinding). -/
def finalDaySet (cs : List Course) : List String :=
  cs.foldl (fun acc c =>
    if c.meeting_days.contains "TBA" then acc else validDaysOf c.meeting_days) []

/-- The ids of the courses for which `add_day_constraints` registers a day
constraint: `"TBA"` not among the tokens and a non-empty `valid_days` at
registration time. -/
def dayConstrainedIds (cs : List Course) : List Nat :=
  (cs.filter (fun c =>
    !(c.meeting_days.contains "TBA") && !(validDaysOf c.meeting_days).isEmpty)).map Course.id

/-- `Problem.addVariable` raises on a duplicate variable; this checks the
course-id list the way the loop in `setup_variables` would trip over it. -/
def idsNodupB : List Nat → Bool
  | [] => true
  | x :: xs => !(xs.contains x) && idsNodupB xs

/-- The conjunction of all unary constraints registered for variable `cid`,
evaluated at value `v`: every window constraint of `add_duration_constraints`
(slot within `[start, end]`, inclusive) and, when `cid` carries a day
constraint, membership of the day in the late-bound `valid_days` set. -/
def unaryOK (ws : List (Nat × List (Nat × Nat))) (dayC : List Nat)
    (fds : List String) (cid : Nat) (v : SlotVal) : Bool :=
  (match ws.lookup cid with
   | some wl => wl.all (fun w => decide (w.1 ≤ v.2) && decide (v.2 ≤ w.2))
   | none => true)
  && (if cid ∈ dayC then decide (v.1 ∈ fds) else true)

/-- The binary constraint of `add_time_constraints`:
`lambda t1, t2: t1[0] != t2[0] or t1[1] != t2[1]`. -/
def timeConflictOK (t1 t2 : SlotVal) : Bool :=
  decide (t1.1 ≠ t2.1) || decide (t1.2 ≠ t2.2)

/-- Modelled from the spec (§4.4), the value loop of the backtracking search
engine of the external `python-constraint` package: try the candidate values
in domain order; accept a value iff it satisfies the unary constraints and
the binary constraint against every already-bound variable; on acceptance
continue with `k`; on failure of the continuation, advance to the next
value; `none` when the candidates are exhausted. -/
def tryVals (u : Nat → SlotVal → Bool) (k : List (Nat × SlotVal) → Option (List (Nat × SlotVal)))
    (cid : Nat) (acc : List (Nat × SlotVal)) : List SlotVal → Option (List (Nat × SlotVal))
  | [] => none
  | v :: vs =>
    if u cid v && acc.all (fun p => timeConflictOK p.2 v) then
      match k ((cid, v) :: acc) with
      | some s => some s
      | none => tryVals u k cid acc vs
    else tryVals u k cid acc vs

/-- Modelled from the spec (§4.4), the variable loop of the backtracking
search engine: bind the variables in creation order, accumulating bindings
(most recent first); succeed with the accumulated assignment when all
variables are bound. -/
def solveVars (u : Nat → SlotVal → Bool) (dom : List SlotVal) (vars : List Nat) :
    List (Nat × SlotVal) → Option (List (Nat × SlotVal)) :=
  List.rec (fun acc => some acc)
    (fun cid _rest ih acc => tryVals u ih cid acc dom) vars

/-- Modelled from the spec (§4.4): run the backtracking search from the empty
assignment and present the result in variable creation order. -/
def solveAll (u : Nat → SlotVal → Bool) (dom : List SlotVal) (vars : List Nat) :
    Option (List (Nat × SlotVal)) :=
  (solveVars u dom vars []).map List.reverse

/-- `ScheduleOptimizer.optimize`: build variables (raising on duplicate
course ids), collect the duration windows (raising when `_parse_time`
raises), register the day constraints with their late-bound shared
`valid_days`, and run the search engine. -/
def optimize (raw : List Course) : Except Unit (Option (List (Nat × SlotVal))) :=
  if idsNodupB ((loadData raw).map Course.id) then
    match allWindows (loadData raw) with
    | .error e => .error e
    | .ok ws =>
      .ok (solveAll
        (unaryOK ws (dayConstrainedIds (loadData raw)) (finalDaySet (loadData raw)))
        fullDomain ((loadData raw).map Course.id))
  else .error ()

/-- The truthiness test `if solution:` of `optimize_schedule` (src/app.py):
`None` and the empty dict are both falsy. -/
def appSuccess : Option (List (Nat × SlotVal)) → Bool
  | none => false
  | some m => !m.isEmpty

/-- A bound-variable list is consistent when every binding satisfies its
unary constraints and the binary constraint against every binding made
before it (i.e. every entry after it in the accumulator). -/
def consistentB (u : Nat → SlotVal → Bool) : List (Nat × SlotVal) → Bool
  | [] => true
  | (cid, v) :: rest =>
    (u cid v && rest.all (fun p => timeConflictOK p.2 v)) && consistentB u rest

/-- Concrete input: a course meeting Mondays whose day constraint is silently
overwritten by the later course's `valid_days`. -/
def crsDayBugA : Course := ⟨1, "CS", "101", "Algorithms", ["M"], ["8:00a-9:15a"]⟩

/-- Concrete input: the last course of the list, whose `valid_days` set
`{Tuesday}` is the one every day-constraint lambda ends up consulting. -/
def crsDayBugB : Course := ⟨2, "CS", "102", "Systems", ["T"], ["8:00a-9:15a"]⟩

/-- Concrete input: two courses with identical day sets and windows. -/
def rawPairDemo : List Course :=
  [⟨1, "CS", "103", "Theory", ["MWF"], ["9:00a-10:00a"]⟩,
   ⟨2, "CS", "104", "Logic", ["MWF"], ["9:00a-10:00a"]⟩]

/-- Concrete input: a single afternoon course. -/
def crsWindowDemo : Course := ⟨1, "CS", "105", "AI", ["TTH"], ["1:00p-2:30p"]⟩

/-- Concrete input list for the window-membership witness. -/
def rawWindowDemo : List Course := [crsWindowDemo]

/-- Concrete input: a course with a literal `"TBA"` meeting time. -/
def crsTbaDemo : Course := ⟨1, "CS", "106", "Ethics", ["M"], ["TBA"]⟩

/-- Concrete input list mixing a TBA course with a schedulable one. -/
def rawTbaDemo : List Course :=
  [crsTbaDemo, ⟨2, "CS", "107", "Graphics", ["M"], ["8:00a-9:15a"]⟩]

/-- Concrete input: a meeting-time string with two hyphens, on which
`start, end = time_str.split('-')` raises an uncaught `ValueError`. -/
def crsDoubleHyphen : Course := ⟨1, "CS", "108", "Lab", ["M"], ["8:00a-9:00a-10:00a"]⟩

/-- Concrete input: a single well-formed course. -/
def rawCompleteDemo : List Course := [⟨1, "CS", "109", "Networks", ["M"], ["8:00a-9:15a"]⟩]

/-- Concrete input for the determinism witness. -/
def crsDetDemo : Course := ⟨1, "CS", "110", "OS", ["MWF"], ["8:00a-9:15a"]⟩

/-- Concrete input whose only course is filtered out by the TBA rule. -/
def rawAllTba : List Course := [⟨1, "CS", "111", "Seminar", ["M"], ["TBA"]⟩]

theorem solveVars_nil (u : Nat → SlotVal → Bool) (dom : List SlotVal)
    (acc : List (Nat × SlotVal)) :
    solveVars u dom [] acc = some acc := rfl

theorem solveVars_cons (u : Nat → SlotVal → Bool) (dom : List SlotVal)
    (cid : Nat) (rest : List Nat) (acc : List (Nat × SlotVal)) :
    solveVars u dom (cid :: rest) acc = tryVals u (solveVars u dom rest) cid acc dom := rfl

theorem timeConflictOK_iff (t1 t2 : SlotVal) :
    timeConflictOK t1 t2 = true ↔ t1 ≠ t2 := by
  simp [timeConflictOK, Prod.ext_iff]
  tauto

theorem tryVals_some (u : Nat → SlotVal → Bool)
    (k : List (Nat × SlotVal) → Option (List (Nat × SlotVal)))
    (cid : Nat) (acc : List (Nat × SlotVal)) :
    ∀ cands s, tryVals u k cid acc cands = some s →
      ∃ v, v ∈ cands ∧ (u cid v && acc.all (fun p => timeConflictOK p.2 v)) = true ∧
        k ((cid, v) :: acc) = some s := by
  intro cands
  induction cands with
  | nil => intro s h; simp [tryVals] at h
  | cons v vs ih =>
    intro s h
    rw [tryVals] at h
    by_cases hg : (u cid v && acc.all (fun p => timeConflictOK p.2 v)) = true
    · rw [if_pos hg] at h
      cases hk : k ((cid, v) :: acc) with
      | some s' =>
        rw [hk] at h
        cases h
        exact ⟨v, by simp, hg, hk⟩
      | none =>
        rw [hk] at h
        obtain ⟨v', hv', hg', hk'⟩ := ih s h
        exact ⟨v', by simp [hv'], hg', hk'⟩
    · rw [if_neg hg] at h
      obtain ⟨v', hv', hg', hk'⟩ := ih s h
      exact ⟨v', by simp [hv'], hg', hk'⟩

theorem solveVars_sound (u : Nat → SlotVal → Bool) (dom : List SlotVal) :
    ∀ vars acc s, consistentB u acc = true → solveVars u dom vars acc = some s →
      consistentB u s = true ∧ s.map Prod.fst = vars.reverse ++ acc.map Prod.fst := by
  intro vars
  induction vars with
  | nil =>
    intro acc s hc h
    rw [solveVars_nil] at h
    cases h
    exact ⟨hc, by simp⟩
  | cons cid rest ih =>
    intro acc s hc h
    rw [solveVars_cons] at h
    obtain ⟨v, _, hg, hk⟩ := tryVals_some u (solveVars u dom rest) cid acc dom s h
    have hc' : consistentB u ((cid, v) :: acc) = true := by
      rw [consistentB, hg, hc]
      rfl
    obtain ⟨h1, h2⟩ := ih ((cid, v) :: acc) s hc' hk
    refine ⟨h1, ?_⟩
    rw [h2]
    simp

theorem solveAll_sound (u : Nat → SlotVal → Bool) (dom : List SlotVal)
    (vars : List Nat) (sol : List (Nat × SlotVal))
    (h : solveAll u dom vars = some sol) :
    consistentB u sol.reverse = true ∧ sol.map Prod.fst = vars := by
  unfold solveAll at h
  cases hs : solveVars u dom vars [] with
  | none => rw [hs] at h; cases h
  | some s =>
    rw [hs] at h
    cases h
    obtain ⟨h1, h2⟩ := solveVars_sound u dom vars [] s (by rfl) hs
    refine ⟨by simpa using h1, ?_⟩
    rw [List.map_reverse, h2]
    simp

theorem consistent_unary (u : Nat → SlotVal → Bool) :
    ∀ l, consistentB u l = true → ∀ p ∈ l, u p.1 p.2 = true := by
  intro l
  induction l with
  | nil => intro _ p hp; cases hp
  | cons q rest ih =>
    intro hc p hp
    obtain ⟨cid, v⟩ := q
    rw [consistentB, Bool.and_eq_true, Bool.and_eq_true] at hc
    rcases List.mem_cons.mp hp with h | h
    · subst h; exact hc.1.1
    · exact ih hc.2 p h

theorem consistent_mem_ne (u : Nat → SlotVal → Bool) :
    ∀ l, consistentB u l = true →
      ∀ p ∈ l, ∀ q ∈ l, p ≠ q → p.2 ≠ q.2 := by
  intro l
  induction l with
  | nil => intro _ p hp; cases hp
  | cons r rest ih =>
    intro hc p hp q hq hpq
    obtain ⟨cid, v⟩ := r
    rw [consistentB, Bool.and_eq_true, Bool.and_eq_true] at hc
    have hall : ∀ x ∈ rest, x.2 ≠ v := by
      intro x hx
      have := List.all_eq_true.mp hc.1.2 x hx
      exact (timeConflictOK_iff x.2 v).mp (by simpa using this)
    rcases List.mem_cons.mp hp with h1 | h1 <;> rcases List.mem_cons.mp hq with h2 | h2
    · exact absurd (h1.trans h2.symm) hpq
    · subst h1; exact fun he => hall q h2 (by simpa using he.symm)
    · subst h2; exact fun he => hall p h1 (by simpa using he)
    · exact ih hc.2 p h1 q h2 hpq

theorem allWindows_keys :
    ∀ cs ws, allWindows cs = .ok ws → ws.map Prod.fst = cs.map Course.id := by
  intro cs
  induction cs with
  | nil => intro ws h; cases h; rfl
  | cons c rest ih =>
    intro ws h
    rw [allWindows] at h
    cases hw : courseWindows c.meeting_times with
    | error e => rw [hw] at h; cases h
    | ok wl =>
      rw [hw] at h
      cases ha : allWindows rest with
      | error e => rw [ha] at h; cases h
      | ok ws' =>
        rw [ha] at h
        cases h
        simp [ih ws' ha]

theorem allWindows_lookup :
    ∀ cs ws, allWindows cs = .ok ws → idsNodupB (cs.map Course.id) = true →
      ∀ c ∈ cs, ∃ wl, courseWindows c.meeting_times = .ok wl ∧ ws.lookup c.id = some wl := by
  intro cs
  induction cs with
  | nil => intro ws _ _ c hc; cases hc
  | cons c0 rest ih =>
    intro ws h hn c hc
    rw [allWindows] at h
    cases hw : courseWindows c0.meeting_times with
    | error e => rw [hw] at h; cases h
    | ok wl0 =>
      rw [hw] at h
      cases ha : allWindows rest with
      | error e => rw [ha] at h; cases h
      | ok ws' =>
        rw [ha] at h
        cases h
        rw [List.map_cons, idsNodupB, Bool.and_eq_true] at hn
        rcases List.mem_cons.mp hc with h1 | h1
        · subst h1
          exact ⟨wl0, hw, by simp [List.lookup]⟩
        · obtain ⟨wl, hwl, hlk⟩ := ih ws' ha hn.2 c h1
          have hne : (c.id == c0.id) = false := by
            have hmem : c.id ∈ rest.map Course.id := List.mem_map_of_mem Course.id h1
            have hno : c0.id ∉ rest.map Course.id := by simpa using hn.1
            exact beq_eq_false_iff_ne.mpr (fun he => hno (he ▸ hmem))
          exact ⟨wl, hwl, by simp [List.lookup, hne, hlk]⟩

theorem courseWindows_mem :
    ∀ ts wl, courseWindows ts = .ok wl →
      ∀ mt ∈ ts, ∀ w, parseTimeE mt = .ok (some w) → w ∈ wl := by
  intro ts
  induction ts with
  | nil => intro wl _ mt hmt; cases hmt
  | cons t rest ih =>
    intro wl h mt hmt w hw
    rw [courseWindows] at h
    by_cases ht : t = "TBA"
    · rw [if_pos ht] at h
      rcases List.mem_cons.mp hmt with h1 | h1
      · rw [h1, ht] at hw
        have htba : parseTimeE "TBA" = .ok none := rfl
        rw [htba] at hw
        cases hw
      · exact ih wl h mt h1 w hw
    · rw [if_neg ht] at h
      cases hp : parseTimeE t with
      | error e => rw [hp] at h; cases h
      | ok o =>
        cases o with
        | none =>
          rw [hp] at h
          rcases List.mem_cons.mp hmt with h1 | h1
          · rw [h1, hp] at hw; cases hw
          · exact ih wl h mt h1 w hw
        | some w0 =>
          rw [hp] at h
          cases hr : courseWindows rest with
          | error e => rw [hr] at h; cases h
          | ok wl' =>
            rw [hr] at h
            cases h
            rcases List.mem_cons.mp hmt with h1 | h1
            · rw [h1, hp] at hw
              cases hw
              simp
            · exact List.mem_cons_of_mem _ (ih wl' hr mt h1 w hw)

theorem optimize_ok_elim (raw : List Course) (sol : List (Nat × SlotVal))
    (h : optimize raw = .ok (some sol)) :
    ∃ ws, idsNodupB ((loadData raw).map Course.id) = true ∧
      allWindows (loadData raw) = .ok ws ∧
      solveAll (unaryOK ws (dayConstrainedIds (loadData raw)) (finalDaySet (loadData raw)))
        fullDomain ((loadData raw).map Course.id) = some sol := by
  unfold optimize at h
  by_cases hn : idsNodupB ((loadData raw).map Course.id) = true
  · rw [if_pos hn] at h
    cases ha : allWindows (loadData raw) with
    | error e => rw [ha] at h; cases h
    | ok ws =>
      rw [ha] at h
      injection h with h2
      exact ⟨ws, hn, rfl, h2⟩
  · rw [if_neg (by simpa using hn)] at h
    cases h

theorem splitCh_of_not_mem (c : Char) :
    ∀ cs : List Char, c ∉ cs → splitCh c cs = [cs] := by
  intro cs
  induction cs with
  | nil => intro _; rfl
  | cons x xs ih =>
    intro h
    rw [splitCh]
    rw [if_neg (show ¬ x = c by intro he; subst he; exact h (List.mem_cons_self x xs))]
    rw [ih (fun hm => h (List.mem_cons_of_mem x hm))]

theorem courseWindows_skip_entry (s : String) (hs : parseTimeE s = .ok none) :
    ∀ ts1 ts2, courseWindows (ts1 ++ s :: ts2) = courseWindows (ts1 ++ ts2) := by
  intro ts1
  induction ts1 with
  | nil =>
    intro ts2
    rw [List.nil_append, List.nil_append, courseWindows]
    by_cases ht : s = "TBA"
    · rw [if_pos ht]
    · rw [if_neg ht, hs]
  | cons t ts1' ih =>
    intro ts2
    rw [List.cons_append, List.cons_append, courseWindows, courseWindows]
    by_cases ht : t = "TBA"
    · rw [if_pos ht, if_pos ht, ih]
    · rw [if_neg ht, if_neg ht]
      cases hp : parseTimeE t with
      | error e => rfl
      | ok o =>
        cases o with
        | none => exact ih ts2
        | some w => rw [ih]


theorem mem_addDay (x d : String) (acc : List String) :
    x ∈ addDay acc d ↔ x ∈ acc ∨ x = d := by
  unfold addDay
  by_cases h : acc.contains d = true
  · rw [if_pos h]
    have hd : d ∈ acc := by simpa using h
    constructor
    · exact Or.inl
    · rintro (hx | hx)
      · exact hx
      · exact hx ▸ hd
  · rw [if_neg h]
    simp

/-- Claim C1: the spec's day-membership invariant (the bound day of every
course with a non-empty derived day set lies in that course's own derived
set) fails on the code: every day-constraint lambda closes over the shared
`valid_days` variable, so at solve time each course is checked against the
*last* course's set.  Here course 1 meets only Mondays, yet the returned
assignment puts it on Tuesday. -/
theorem day_constraint_late_binding_bug :
    optimize [crsDayBugA, crsDayBugB] =
      .ok (some [(crsDayBugA.id, ("Tuesday", 480)), (crsDayBugB.id, ("Tuesday", 510))]) ∧
    validDaysOf crsDayBugA.meeting_days = ["Monday"] ∧
    ("Tuesday" : String) ∉ validDaysOf crsDayBugA.meeting_days :=
  ⟨rfl, rfl, by decide⟩

/-- Claim C2: every assignment returned by `optimize` gives distinct courses
distinct (day, slot) pairs. -/
theorem optimize_no_collision (raw : List Course) (sol : List (Nat × SlotVal))
    (h : optimize raw = .ok (some sol)) :
    ∀ p ∈ sol, ∀ q ∈ sol, p.1 ≠ q.1 → p.2 ≠ q.2 := by
  obtain ⟨ws, hn, ha, hs⟩ := optimize_ok_elim raw sol h
  obtain ⟨hc, _⟩ := solveAll_sound _ _ _ _ hs
  intro p hp q hq hne
  exact consistent_mem_ne _ _ hc p (List.mem_reverse.mpr hp) q (List.mem_reverse.mpr hq)
    (fun he => hne (congrArg Prod.fst he))

/-- Witness for C2 at a concrete two-course input. -/
theorem optimize_no_collision_witness :
    optimize rawPairDemo = .ok (some [(1, ("Monday", 540)), (2, ("Monday", 570))]) ∧
    (("Monday", 540) : SlotVal) ≠ ("Monday", 570) :=
  ⟨rfl, optimize_no_collision rawPairDemo [(1, ("Monday", 540)), (2, ("Monday", 570))] rfl
    (1, ("Monday", 540)) (by decide) (2, ("Monday", 570)) (by decide) (by decide)⟩

/-- Claim C3: in every returned assignment, every course's slot lies within
`[start, end]` for each of its successfully parsed meeting-time windows. -/
theorem optimize_window_membership (raw : List Course) (sol : List (Nat × SlotVal))
    (h : optimize raw = .ok (some sol)) :
    ∀ p ∈ sol, ∀ c ∈ loadData raw, c.id = p.1 →
      ∀ mt ∈ c.meeting_times, ∀ se : Nat × Nat, parseTimeE mt = .ok (some se) →
        se.1 ≤ p.2.2 ∧ p.2.2 ≤ se.2 := by
  obtain ⟨ws, hn, ha, hs⟩ := optimize_ok_elim raw sol h
  obtain ⟨hc, _⟩ := solveAll_sound _ _ _ _ hs
  intro p hp c hcmem hcid mt hmt se hse
  have hu := consistent_unary _ _ hc p (List.mem_reverse.mpr hp)
  obtain ⟨wl, hwl, hlk⟩ := allWindows_lookup (loadData raw) ws ha hn c hcmem
  have hwmem : se ∈ wl := courseWindows_mem c.meeting_times wl hwl mt hmt se hse
  rw [unaryOK, Bool.and_eq_true] at hu
  have h1 := hu.1
  rw [hcid] at hlk
  rw [hlk] at h1
  have h2 := List.all_eq_true.mp h1 se hwmem
  rw [Bool.and_eq_true, decide_eq_true_iff, decide_eq_true_iff] at h2
  exact h2

/-- Witness for C3 at a concrete one-course input. -/
theorem optimize_window_membership_witness :
    optimize rawWindowDemo = .ok (some [(1, ("Thursday", 780))]) ∧
    (780 ≤ 780 ∧ 780 ≤ 870) :=
  ⟨rfl, optimize_window_membership rawWindowDemo [(1, ("Thursday", 780))] rfl
    (1, ("Thursday", 780)) (by decide) crsWindowDemo (by decide) rfl
    "1:00p-2:30p" (by decide) (780, 870) rfl⟩

/-- Claim C4 counterexample: the claim maps the token `"TTH"` to
{Tuesday, Thursday}, but the code's rule (`"T" in day and "H" not in day`)
never contributes Tuesday for a token containing `"H"`, so `"TTH"` derives
{Thursday} only. -/
theorem day_decoding_tth_refuted :
    validDaysOf ["TTH"] = ["Thursday"] ∧
    ("Tuesday" : String) ∉ validDaysOf ["TTH"] :=
  ⟨rfl, by decide⟩

/-- Claim C4 (amended): `"MWF"` derives {Monday, Wednesday, Friday}; `"TTH"`
derives {Thursday}; unmapped letters such as `"R"` contribute no day; and a
token contributes Tuesday exactly when it contains `"T"` and does not
contain `"H"` anywhere. -/
theorem day_decoding_amended :
    validDaysOf ["MWF"] = ["Monday", "Wednesday", "Friday"] ∧
    validDaysOf ["TTH"] = ["Thursday"] ∧
    validDaysOf ["R"] = [] ∧
    ∀ tok : String, (("Tuesday" : String) ∈ validDaysOf [tok] ↔
      (hasSub tok "T" = true ∧ hasSub tok "H" = false)) := by
  refine ⟨rfl, rfl, rfl, ?_⟩
  intro tok
  show ("Tuesday" : String) ∈ dayStep [] tok ↔ _
  simp only [dayStep]
  split_ifs with h1 h2 h3 h4 h5 <;>
    simp_all [mem_addDay, Bool.and_eq_true, Bool.not_eq_true']

/-- Claim C5: a course with a literal `"TBA"` meeting-time entry is excluded
from the model (no variable) and its id never appears in a returned
assignment.  Course ids are unique per the data model (spec §3). -/
theorem tba_course_excluded (raw : List Course) (c : Course)
    (h1 : c ∈ raw) (h2 : ("TBA" : String) ∈ c.meeting_times)
    (h3 : (raw.map Course.id).Nodup)
    (sol : List (Nat × SlotVal)) (h4 : optimize raw = .ok (some sol)) :
    c ∉ loadData raw ∧ c.id ∉ sol.map Prod.fst := by
  constructor
  · intro hmem
    have hp := (List.mem_filter.mp hmem).2
    simp at hp
    exact hp h2
  · intro hid
    obtain ⟨ws, hn, ha, hs⟩ := optimize_ok_elim raw sol h4
    obtain ⟨_, hkeys⟩ := solveAll_sound _ _ _ _ hs
    rw [hkeys] at hid
    obtain ⟨c', hc'mem, hc'id⟩ := List.mem_map.mp hid
    have hc'raw : c' ∈ raw := List.mem_of_mem_filter hc'mem
    have hcc : c' ≠ c := by
      intro he
      have hp := (List.mem_filter.mp hc'mem).2
      rw [he] at hp
      simp at hp
      exact hp h2
    exact hcc (List.inj_on_of_nodup_map h3 hc'raw h1 hc'id)

/-- Witness for C5 at a concrete input mixing a TBA course and a kept one. -/
theorem tba_course_excluded_witness :
    crsTbaDemo ∉ loadData rawTbaDemo ∧
    crsTbaDemo.id ∉ ([(2, ("Monday", 480))] : List (Nat × SlotVal)).map Prod.fst :=
  tba_course_excluded rawTbaDemo crsTbaDemo (by decide) (by decide) (by decide)
    [(2, ("Monday", 480))] rfl

/-- Claim C6 counterexample: on a meeting-time string with two hyphens the
tuple unpacking in `_parse_time` raises an uncaught `ValueError`, so
`optimize` returns neither a mapping nor the no-solution signal. -/
theorem optimize_double_hyphen_raises :
    optimize [crsDoubleHyphen] = .error () := rfl

/-- Claim C6 (amended): whenever `optimize` returns normally, the result is
either the no-solution signal or a mapping binding exactly the modeled
course ids — never a proper subset. -/
theorem optimize_complete_or_none (raw : List Course)
    (r : Option (List (Nat × SlotVal))) (h : optimize raw = .ok r) :
    r = none ∨ ∃ sol, r = some sol ∧ sol.map Prod.fst = (loadData raw).map Course.id := by
  cases r with
  | none => exact Or.inl rfl
  | some sol =>
    obtain ⟨ws, hn, ha, hs⟩ := optimize_ok_elim raw sol h
    obtain ⟨_, hkeys⟩ := solveAll_sound _ _ _ _ hs
    exact Or.inr ⟨sol, rfl, hkeys⟩

/-- Witness for C6's amended claim at a concrete one-course input. -/
theorem optimize_complete_or_none_witness :
    (some [(1, ("Monday", 480))] : Option (List (Nat × SlotVal))) = none ∨
    ∃ sol, (some [(1, ("Monday", 480))] : Option (List (Nat × SlotVal))) = some sol ∧
      sol.map Prod.fst = (loadData rawCompleteDemo).map Course.id :=
  optimize_complete_or_none rawCompleteDemo (some [(1, ("Monday", 480))]) rfl

/-- Claim C7: a malformed meeting-time string — no hyphen, or one hyphen
with either normalized half failing 12-hour parsing — makes `_parse_time`
report no window (without raising), and such an entry contributes no window
constraint while the other entries of the same course still do. -/
theorem parse_failure_nonfatal (s : String) :
    (('-' ∉ s.data) → parseTimeE s = .ok none) ∧
    (∀ a b : List Char, splitCh '-' s.data = [a, b] →
      (parse12 (normHalf a) = none ∨ parse12 (normHalf b) = none) →
      parseTimeE s = .ok none) ∧
    (∀ ts1 ts2 : List String, parseTimeE s = .ok none →
      courseWindows (ts1 ++ s :: ts2) = courseWindows (ts1 ++ ts2)) := by
  refine ⟨?_, ?_, ?_⟩
  · intro h
    rw [parseTimeE, parseTimeCore, if_neg h]
  · intro a b hsplit hfail
    have hmem : '-' ∈ s.data := by
      by_contra hm
      rw [splitCh_of_not_mem '-' s.data hm] at hsplit
      simp at hsplit
    rw [parseTimeE, parseTimeCore, if_pos hmem, hsplit]
    show (match parse12 (normHalf a), parse12 (normHalf b) with
          | some t1, some t2 => Except.ok (some (t1, t2))
          | _, _ => Except.ok none) = Except.ok none
    rcases hfail with hf | hf
    · rw [hf]
    · rw [hf]
      cases parse12 (normHalf a) <;> rfl
  · intro ts1 ts2 h
    exact courseWindows_skip_entry s h ts1 ts2

/-- Witness for C7: a hyphen-free string and a string with an unparsable
half both yield no window, and the former prunes nothing while the course's
other entry still contributes its window. -/
theorem parse_failure_nonfatal_witness :
    parseTimeE "noon" = .ok none ∧
    parseTimeE "8:0x-9:00a" = .ok none ∧
    courseWindows (["8:00a-9:00a"] ++ "noon" :: []) = courseWindows (["8:00a-9:00a"] ++ []) :=
  ⟨(parse_failure_nonfatal "noon").1 (by decide),
   (parse_failure_nonfatal "8:0x-9:00a").2.1 "8:0x".data "9:00a".data (by decide)
     (Or.inl (by decide)),
   (parse_failure_nonfatal "noon").2.2 ["8:00a-9:00a"] []
     ((parse_failure_nonfatal "noon").1 (by decide))⟩

/-- Claim C8: `optimize` is deterministic — identical course input (same
records, same order) yields the identical result, successful assignment and
no-solution signal alike. -/
theorem optimize_deterministic (raw1 raw2 : List Course) (h : raw1 = raw2) :
    optimize raw1 = optimize raw2 := by
  rw [h]

/-- Witness for C8 at a concrete input. -/
theorem optimize_deterministic_witness :
    optimize [crsDetDemo] = optimize [crsDetDemo] :=
  optimize_deterministic [crsDetDemo] [crsDetDemo] rfl

set_option maxRecDepth 4000 in
/-- Claim C9: the generated slot list is exactly the 27 ascending 30-minute
marks from 8:00 (480) to 21:00 (1260), and the initial per-variable domain
is the full 5 × 27 = 135 day-slot product. -/
theorem time_slots_and_domain :
    generateTimeSlots.length = 27 ∧
    generateTimeSlots = (List.range 27).map (fun i => 480 + 30 * i) ∧
    List.Pairwise (· < ·) generateTimeSlots ∧
    generateTimeSlots.head? = some 480 ∧
    generateTimeSlots.getLast? = some 1260 ∧
    fullDomain.length = 135 ∧
    fullDomain.length = days.length * generateTimeSlots.length := by
  decide

/-- Claim C10: with an empty filtered course list `optimize` returns the
empty mapping (not the `none` signal), and the app layer's truthiness test
treats that empty mapping exactly like the failure signal. -/
theorem empty_model_empty_mapping (raw : List Course) (h : loadData raw = []) :
    optimize raw = .ok (some []) ∧
    appSuccess (some []) = appSuccess none ∧
    appSuccess (some []) = false := by
  refine ⟨?_, rfl, rfl⟩
  unfold optimize
  rw [h]
  rfl

/-- Witness for C10 at a concrete input whose only course is TBA-filtered. -/
theorem empty_model_empty_mapping_witness :
    optimize rawAllTba = .ok (some []) ∧
    appSuccess (some []) = appSuccess none ∧
    appSuccess (some []) = false :=
  empty_model_empty_mapping rawAllTba rfl
